import Mathlib

/-!
Shallow embedding of the hand-rolled fully connected network
`FullyConnectedNN_np` from `01_FCnn_PTvsNP.ipynb`.

Vectors are `List R`, matrices `List (List R)` (lists of rows), real
numbers are modelled by an arbitrary commutative ring `R` in the
structural definitions and by `ℝ` (with `Real.tanh` as the activation,
as in the source) in the claims.  NumPy operations that can raise
(`ValueError` on misaligned shapes, `IndexError` on bad indices) are
modelled with `Option`: `none` is the raised exception.
-/

namespace FCnn

/-- Dot product of two equally long vectors (`np.dot` on 1-D inputs). -/
def dotVec {R : Type} [CommRing R] (a b : List R) : R :=
  (List.zipWith (fun x y => x * y) a b).sum

/-- Vector–matrix product `np.dot(v, M)` for a 1-D `v` and 2-D `M`:
requires `v.length` to equal the number of rows of `M`, otherwise numpy
raises a `ValueError` (modelled as `none`). -/
def dotVM {R : Type} [CommRing R] (v : List R) (M : List (List R)) : Option (List R) :=
  if v.length = M.length then some (M.transpose.map (fun col => dotVec v col)) else none

/-- Elementwise binary operation with numpy 1-D broadcasting: equal
lengths operate pointwise, a length-1 operand is stretched, anything
else raises (`none`). -/
def broadcastOp {R : Type} [CommRing R] (f : R → R → R) (a b : List R) : Option (List R) :=
  if a.length = b.length then some (List.zipWith f a b)
  else if a.length = 1 then some (b.map (fun y => f (a.getD 0 0) y))
  else if b.length = 1 then some (a.map (fun x => f x (b.getD 0 0)))
  else none

/-- In-place matrix addition `A += B` (`A` and `B` have identical shapes
in every reachable state; a mismatch raises). -/
def matAdd {R : Type} [CommRing R] (A B : List (List R)) : Option (List (List R)) :=
  if A.map List.length = B.map List.length then
    some (List.zipWith (fun r s => List.zipWith (fun x y => x + y) r s) A B)
  else none

/-- Shape of a matrix: row count together with the length of every row. -/
def matShape {R : Type} (M : List (List R)) : Nat × List Nat :=
  (M.length, M.map List.length)

/-- The state owned by `FullyConnectedNN_np`: the architecture list
`self.arch`, the cached layer count `self.layers`, and the weight
matrices `self.weights`. -/
structure FCNN (R : Type) where
  arch : List Nat
  layers : Nat
  weights : List (List (List R))

/-- Constructor `__init__`: one weight matrix per layer boundary,
`w = 2*np.random.rand(arch[layer]+1, arch[layer+1]) - 1`.  The library
RNG is abstracted as `rand layer i j`, the raw uniform `[0,1)` sample
used for entry `(i, j)` of matrix `layer`.  The source performs no
validation of `net_arch`. -/
def construct {R : Type} [CommRing R] (rand : Nat → Nat → Nat → R) (net_arch : List Nat) :
    FCNN R where
  arch := net_arch
  layers := net_arch.length
  weights := (List.range (net_arch.length - 1)).map (fun layer =>
    (List.range (net_arch.getD layer 0 + 1)).map (fun i =>
      (List.range (net_arch.getD (layer + 1) 0)).map (fun j =>
        2 * rand layer i j - 1)))

/-- The loop of `_forward_prop`:
`for i in range(len(self.weights)-1)` appends
`1 :: σ (np.dot(y[i], weights[i]))` to the list `y`.  The first
argument is the remaining iteration count, the second the loop index. -/
def fpIter {R : Type} [CommRing R] (σ : R → R) (W : List (List (List R))) :
    Nat → Nat → List (List R) → Option (List (List R))
  | 0, _, y => some y
  | fuel + 1, i, y =>
    (y.get? i).bind fun yi =>
    (W.get? i).bind fun Wi =>
    (dotVM yi Wi).bind fun act =>
    fpIter σ W fuel (i + 1) (y ++ [1 :: act.map σ])

/-- Method `_forward_prop`: runs the loop, then appends the unbiased final
activation `σ (np.dot(y[-1], weights[-1]))`.  The source aliases
`y = x` and mutates it, so the returned trace is also the final value
of the caller's argument list. -/
def forward_prop {R : Type} [CommRing R] (σ : R → R) (W : List (List (List R)))
    (x : List (List R)) : Option (List (List R)) :=
  (fpIter σ W (W.length - 1) 0 x).bind fun y =>
  (y.getLast?).bind fun ylast =>
  (W.getLast?).bind fun Wlast =>
  (dotVM ylast Wlast).bind fun act =>
  some (y ++ [act.map σ])

/-- Output-layer delta of `_back_prop`:
`error = target - y[-1]; delta = error * activity_derivative(y[-1])`. -/
def outDelta {R : Type} [CommRing R] (der : R → R) (target ylast : List R) :
    Option (List R) :=
  (broadcastOp (fun a b => a - b) target ylast).bind fun error =>
  broadcastOp (fun a b => a * b) error (ylast.map der)

/-- Hidden-layer loop of `_back_prop`:
`for i in range(self.layers-2, 0, -1)` appends
`(delta_vec[-1].dot(weights[i][1:].T)) * activity_derivative(y[i][1:])`. -/
def bpLoop {R : Type} [CommRing R] (der : R → R) (W : List (List (List R)))
    (y : List (List R)) : Nat → List (List R) → Option (List (List R))
  | 0, dv => some dv
  | i + 1, dv =>
    (dv.getLast?).bind fun dlast =>
    (W.get? (i + 1)).bind fun Wi =>
    (dotVM dlast ((Wi.drop 1).transpose)).bind fun e1 =>
    (y.get? (i + 1)).bind fun yi =>
    (broadcastOp (fun a b => a * b) e1 ((yi.drop 1).map der)).bind fun e2 =>
    bpLoop der W y i (dv ++ [e2])

/-- Weight-update loop of `_back_prop`:
`layer = y[i].reshape(1, arch[i]+1); delta = delta_vec[i].reshape(1, arch[i+1]);`
`weights[i] += learning_rate * layer.T.dot(delta)`.  The reshapes raise
unless the vectors have exactly the demanded lengths. -/
def bpUpdate {R : Type} [CommRing R] (lr : R) (arch : List Nat) (y dv : List (List R)) :
    Nat → List (List (List R)) → Option (List (List (List R)))
  | _, [] => some []
  | i, Wi :: rest =>
    (y.get? i).bind fun yi =>
    (dv.get? i).bind fun di =>
    (arch.get? i).bind fun ai =>
    (arch.get? (i + 1)).bind fun ai1 =>
    (if yi.length = ai + 1 then some yi else none).bind fun layer =>
    (if di.length = ai1 then some di else none).bind fun delta =>
    (matAdd Wi (layer.map (fun a => delta.map (fun d => lr * (a * d))))).bind fun Wi2 =>
    (bpUpdate lr arch y dv (i + 1) rest).bind fun rest2 =>
    some (Wi2 :: rest2)

/-- Method `_back_prop`: output delta, hidden-layer loop from index
`self.layers - 2` down to `1`, reversal of the delta trace, and the
in-place weight update. -/
def back_prop {R : Type} [CommRing R] (der : R → R) (net : FCNN R) (y : List (List R))
    (target : List R) (lr : R) : Option (FCNN R) :=
  (y.getLast?).bind fun ylast =>
  (outDelta der target ylast).bind fun delta0 =>
  (bpLoop der net.weights y (net.layers - 2) [delta0]).bind fun dv =>
  (bpUpdate lr net.arch y dv.reverse 0 net.weights).bind fun W2 =>
  some { net with weights := W2 }

/-- Loop of `predict_single_data`: every iteration, including the one
for the last weight matrix, computes
`val = 1 :: σ (np.dot(val, weights[i]))`. -/
def psdLoop {R : Type} [CommRing R] (σ : R → R) :
    List (List (List R)) → List R → Option (List R)
  | [], val => some val
  | W :: ws, val =>
    (dotVM val W).bind fun act =>
    psdLoop σ ws (1 :: act.map σ)

/-- Method `predict_single_data`: bias-prefix the input, run the loop over all
weight matrices, return `val[1]`. -/
def predict_single_data {R : Type} [CommRing R] (σ : R → R) (net : FCNN R)
    (x : List R) : Option R :=
  (psdLoop σ net.weights (1 :: x)).bind fun val => val.get? 1

/-- Loop of the batch `predict`: `Y = np.vstack((Y, [[scalar]]))` where
`Y` starts with `self.arch[-1]` columns; `np.vstack` raises unless the
column counts agree, i.e. unless `cols = 1`. -/
def predLoop {R : Type} [CommRing R] (σ : R → R) (net : FCNN R) (cols : Nat) :
    List (List R) → List (List R) → Option (List (List R))
  | [], acc => some acc
  | x :: xs, acc =>
    (predict_single_data σ net x).bind fun v =>
    if cols = 1 then predLoop σ net cols xs (acc ++ [[v]]) else none

/-- Method `predict`: starts from `np.array([]).reshape(0, self.arch[-1])` and
stacks one `predict_single_data` scalar per sample. -/
def predict {R : Type} [CommRing R] (σ : R → R) (net : FCNN R) (X : List (List R)) :
    Option (List (List R)) :=
  predLoop σ net (net.arch.getLast?.getD 0) X []

/-- Loop of `fit`.  Every iteration draws
`sample = np.random.randint(X.shape[0])` — note: from the length of the
module-level global `X`, not of the `data` argument — then indexes
`Z[sample]` and `labels[sample]` and runs `_forward_prop` followed by
`_back_prop`.  `randint n k` abstracts the `k`-th library draw of
`np.random.randint(n)`.  On success the count of completed weight
updates is returned alongside the trained network. -/
def fitLoop {R : Type} [CommRing R] (σ der : R → R) (randint : Nat → Nat → Nat)
    (Xlen : Nat) (Z : List (List R)) (labels : List R) (lr : R) :
    Nat → Nat → FCNN R → Option (FCNN R × Nat)
  | 0, _, net => some (net, 0)
  | e + 1, k, net =>
    (Z.get? (randint Xlen k)).bind fun zrow =>
    (forward_prop σ net.weights [zrow]).bind fun y =>
    (labels.get? (randint Xlen k)).bind fun t =>
    (back_prop der net y [t] lr).bind fun net2 =>
    (fitLoop σ der randint Xlen Z labels lr e (k + 1) net2).bind fun res =>
    some (res.1, res.2 + 1)

/-- Method `fit`: builds `Z` by bias-prefixing every row of `data`
(`np.concatenate((ones.T, data), axis=1)`) and runs `epochs`
iterations of `fitLoop`.  `globalX` is the module-level global `X`
consulted by `np.random.randint(X.shape[0])`. -/
def fit {R : Type} [CommRing R] (σ der : R → R) (net : FCNN R)
    (globalX : List (List R)) (randint : Nat → Nat → Nat) (data : List (List R))
    (labels : List R) (lr : R) (epochs : Nat) : Option (FCNN R × Nat) :=
  fitLoop σ der randint globalX.length (data.map (fun row => 1 :: row)) labels lr
    epochs 0 net

/-- The call `y = self._forward_prop(x)` at the object level: the method
only reads `self.weights` and never assigns to `self`, so the receiving
network is unchanged; because the source aliases `y = x` and appends to
that list, the caller's argument list afterwards equals the returned
trace. -/
def forward_call {R : Type} [CommRing R] (σ : R → R) (net : FCNN R)
    (x : List (List R)) : FCNN R × Option (List (List R)) :=
  (net, forward_prop σ net.weights x)

/-- Final-layer activation reached by threading a bias-augmented value
vector through the weight matrices: the clean recursion that both
`_forward_prop` (as the last trace entry) and `predict_single_data`
(before its extra bias prefix) compute. -/
def lastAct {R : Type} [CommRing R] (σ : R → R) :
    List (List (List R)) → List R → Option (List R)
  | [], _ => none
  | [W], v => (dotVM v W).map (fun act => act.map σ)
  | W :: W2 :: ws, v => (dotVM v W).bind fun act => lastAct σ (W2 :: ws) (1 :: act.map σ)

/-- Field `self.activity`: `np.tanh`. -/
noncomputable def activity : ℝ → ℝ := Real.tanh

/-- The source's `tanh_derivative`: `1 / np.cosh(x) ** 2`. -/
noncomputable def tanh_derivative (x : ℝ) : ℝ := 1 / Real.cosh x ^ 2

/-- The module-level global `X` of the notebook:
`np.array([[0, 0], [0, 1], [1, 0], [1, 1]])`. -/
def notebookX : List (List ℝ) := [[0, 0], [0, 1], [1, 0], [1, 1]]

/-- A `[1, 1]` network with zero weights (shape `(2, 1)`). -/
def netA (R : Type) [CommRing R] : FCNN R := ⟨[1, 1], 2, [[[0], [0]]]⟩

/-- A `[1, 2]` network with zero weights (shape `(2, 2)`). -/
def netB (R : Type) [CommRing R] : FCNN R := ⟨[1, 2], 2, [[[0, 0], [0, 0]]]⟩

/-- A `[2, 2]` network with zero weights (shape `(3, 2)`). -/
def netC (R : Type) [CommRing R] : FCNN R := ⟨[2, 2], 2, [[[0, 0], [0, 0], [0, 0]]]⟩

/-- A `[2, 2, 1]` network with zero weights (shapes `(3, 2)` and `(3, 1)`). -/
def netD (R : Type) [CommRing R] : FCNN R :=
  ⟨[2, 2, 1], 3, [[[0, 0], [0, 0], [0, 0]], [[0], [0], [0]]]⟩

/-! ### Helper lemmas -/

theorem broadcastOp_eq_len {R : Type} [CommRing R] (f : R → R → R) (a b : List R)
    (h : a.length = b.length) : broadcastOp f a b = some (List.zipWith f a b) := by
  simp [broadcastOp, h]

theorem zip_sub_mul {R : Type} [CommRing R] (der : R → R) :
    ∀ t y : List R,
      List.zipWith (fun a b => a * b)
          (List.zipWith (fun a b => a - b) t y) (y.map der)
        = List.zipWith (fun a b => (a - b) * der b) t y
  | [], _ => by simp
  | _ :: _, [] => by simp
  | a :: t, b :: y => by simp [zip_sub_mul der t y]

/-- Shapes of the matrices allocated by `__init__`: matrix `layer` has
`arch[layer] + 1` rows of `arch[layer + 1]` entries each. -/
theorem construct_shapes {R : Type} [CommRing R] (rand : Nat → Nat → Nat → R)
    (net_arch : List Nat) :
    (construct rand net_arch).weights.map matShape
      = (List.range (net_arch.length - 1)).map (fun l =>
          (net_arch.getD l 0 + 1,
            List.replicate (net_arch.getD l 0 + 1) (net_arch.getD (l + 1) 0))) := by
  have hconst : ∀ (n m : Nat) (g : Nat → List R), (∀ i, (g i).length = m) →
      List.map (List.length ∘ g) (List.range n) = List.replicate n m := by
    intro n m g hg
    induction n with
    | zero => simp
    | succ k ih => simp [List.range_succ, List.replicate_succ', ih, hg]
  simp only [construct, List.map_map]
  apply List.map_congr_left
  intro l _
  simp only [matShape, Function.comp, List.length_map, List.length_range,
    List.map_map]
  refine Prod.ext rfl ?_
  exact hconst _ _ _ (fun i => by simp)

/-! ### C2: construction performs no validation -/

/-- C2 counterexample: contrary to the claim that Construct fails with
`InvalidArchitecture` for `[5]` and `[3, 0, 2]` and produces no network,
the source `__init__` validates nothing: for `[5]` it returns a network
with an empty weight list, and for `[3, 0, 2]` it returns two weight
matrices of shapes `(4, 0)` and `(1, 2)`. -/
theorem C2_construct_no_error_counterexample :
    (construct (fun _ _ _ => (0 : ℝ)) [5]).weights = [] ∧
    (construct (fun _ _ _ => (0 : ℝ)) [3, 0, 2]).weights.map matShape
      = [(4, [0, 0, 0, 0]), (1, [2])] := by
  constructor <;> rfl

/-- C2 amended: Construct never raises; for every architecture it
returns a network with `len(arch) - 1` weight matrices, in particular a
network with no matrices for `[5]` and one with matrices of shapes
`(4, 0)` and `(1, 2)` for `[3, 0, 2]`. -/
theorem C2_construct_amended (rand : Nat → Nat → Nat → ℝ) :
    (∀ net_arch : List Nat,
        (construct rand net_arch).weights.length = net_arch.length - 1) ∧
    (construct rand [5]).weights = [] ∧
    (construct rand [3, 0, 2]).weights.map matShape
      = [(4, [0, 0, 0, 0]), (1, [2])] :=
  ⟨fun _ => by simp [construct], rfl, rfl⟩

/-! ### C3: shape errors in Backward -/

/-- C3 counterexample: Backward does not fail for every target length
that disagrees with the output length.  On the `[2, 2]` zero network,
whose output layer has 2 neurons, the length-1 target `[0]` broadcasts
silently and `_back_prop` completes without any error. -/
theorem C3_mismatch_no_error_counterexample :
    (back_prop tanh_derivative (netC ℝ) [[1, 0, 0], [0, 0]] [0] (1 / 10)).isSome
      = true ∧
    ([(0 : ℝ)]).length ≠ ([[(1 : ℝ), 0, 0], [0, 0]].getLast (by simp)).length := by
  constructor
  · rfl
  · simp

/-- C3 amended: Backward fails with a shape error (a numpy `ValueError`,
modelled as `none`) when the broadcast or dot shapes are incompatible —
in particular for the `[2, 2, 1]` network with target `[0, 1]`, where
the hidden-layer dot product misaligns — but not for every mismatched
target length: a length-1 target broadcasts against a longer output. -/
theorem C3_shape_error_amended :
    back_prop tanh_derivative (netD ℝ) [[1, 0, 0], [1, 0, 0], [0]] [0, 1] (1 / 10)
      = none := by
  rfl

/-! ### C6: weight initialization shapes and range -/

/-- C6 counterexample: `np.random.rand` draws uniformly from the
half-open interval `[0, 1)`, so a raw draw of `0` is possible and gives
the weight entry `2*0 - 1 = -1`, which is not strictly inside the open
interval `(-1, 1)` that the claim demands. -/
theorem C6_weight_range_counterexample :
    (construct (fun _ _ _ => (0 : ℝ)) [1, 1]).weights = [[[-1], [-1]]] ∧
    (-1 : ℝ) ∉ Set.Ioo (-1 : ℝ) 1 := by
  constructor
  · simp only [construct]
    norm_num [List.range_succ, List.replicate_succ]
  · simp

/-- C6 amended: for every architecture and every raw uniform sample
function into `[0, 1)`, Construct yields exactly `len(arch) - 1` weight
matrices, matrix `i` of shape `(arch[i] + 1, arch[i+1])`, and every
entry lies in the half-open interval `[-1, 1)` (the open interval
`(-1, 1)` of the claim fails only at the left endpoint). -/
theorem C6_construct_amended (rand : Nat → Nat → Nat → ℝ) (net_arch : List Nat)
    (hr : ∀ l i j, rand l i j ∈ Set.Ico (0 : ℝ) 1) :
    (construct rand net_arch).weights.length = net_arch.length - 1 ∧
    (construct rand net_arch).weights.map matShape
      = (List.range (net_arch.length - 1)).map (fun l =>
          (net_arch.getD l 0 + 1,
            List.replicate (net_arch.getD l 0 + 1) (net_arch.getD (l + 1) 0))) ∧
    ∀ M ∈ (construct rand net_arch).weights, ∀ row ∈ M, ∀ e ∈ row,
      e ∈ Set.Ico (-1 : ℝ) 1 := by
  refine ⟨by simp [construct], construct_shapes rand net_arch, ?_⟩
  · intro M hM row hrow e he
    simp only [construct, List.mem_map] at hM
    obtain ⟨l, -, rfl⟩ := hM
    simp only [List.mem_map] at hrow
    obtain ⟨i, -, rfl⟩ := hrow
    simp only [List.mem_map] at he
    obtain ⟨j, -, rfl⟩ := he
    obtain ⟨h0, h1⟩ := Set.mem_Ico.mp (hr l i j)
    exact Set.mem_Ico.mpr ⟨by linarith, by linarith⟩

/-- C6 witness: the amended statement evaluated at the constant-zero
sample stream and architecture `[1, 1]`. -/
theorem C6_construct_amended_witness :
    (∀ l i j : Nat, (fun _ _ _ => (0 : ℝ)) l i j ∈ Set.Ico (0 : ℝ) 1) ∧
    ((construct (fun _ _ _ => (0 : ℝ)) [1, 1]).weights.length = [1, 1].length - 1 ∧
      (construct (fun _ _ _ => (0 : ℝ)) [1, 1]).weights.map matShape
        = (List.range ([1, 1].length - 1)).map (fun l =>
            ([1, 1].getD l 0 + 1,
              List.replicate ([1, 1].getD l 0 + 1) ([1, 1].getD (l + 1) 0))) ∧
      ∀ M ∈ (construct (fun _ _ _ => (0 : ℝ)) [1, 1]).weights, ∀ row ∈ M, ∀ e ∈ row,
        e ∈ Set.Ico (-1 : ℝ) 1) :=
  ⟨fun _ _ _ => by simp,
    C6_construct_amended (fun _ _ _ => (0 : ℝ)) [1, 1] (fun _ _ _ => by simp)⟩

/-! ### C1: output-layer gradient signal -/

theorem cosh_half_sq_lt : Real.cosh (1 / 2) ^ 2 < 4 / 3 := by
  have h2 : Real.cosh 1 = 2 * Real.cosh (1 / 2) ^ 2 - 1 := by
    have ha := Real.cosh_two_mul (1 / 2)
    have hb := Real.cosh_sq (1 / 2)
    norm_num at ha
    linarith
  have hc1 : Real.cosh 1 = (Real.exp 1 + Real.exp (-1)) / 2 := Real.cosh_eq 1
  have hneg : Real.exp (-1) = (Real.exp 1)⁻¹ := Real.exp_neg 1
  have hlt := Real.exp_one_lt_d9
  have hgt := Real.exp_one_gt_d9
  have hpos : (0 : ℝ) < Real.exp 1 := Real.exp_pos 1
  have hmul : Real.exp 1 * (Real.exp 1)⁻¹ = 1 := mul_inv_cancel₀ (ne_of_gt hpos)
  have hinvpos : (0 : ℝ) < (Real.exp 1)⁻¹ := by positivity
  nlinarith [mul_pos hinvpos (sub_pos.mpr hgt)]

theorem tanh_derivative_half_ne : tanh_derivative (1 / 2) ≠ 1 - ((1 : ℝ) / 2) ^ 2 := by
  unfold tanh_derivative
  have hlt := cosh_half_sq_lt
  have hpos : (0 : ℝ) < Real.cosh (1 / 2) ^ 2 := by positivity
  have hgt : (3 : ℝ) / 4 < 1 / Real.cosh (1 / 2) ^ 2 := by
    rw [lt_div_iff₀ hpos]; nlinarith
  intro h
  rw [h] at hgt
  norm_num at hgt

/-- C1 counterexample: the derivative routine applied to the
post-activation value `1/2` yields `1 / cosh(1/2)²`, which is strictly
greater than `1 - (1/2)²`, so the output-layer gradient signal on an
activation trace ending in `[1/2]` with target `[0]` is not
`error * (1 - output²)`; the claimed identity
`tanh_derivative y = 1 - y²` is false (the correct identity would be
`tanh_derivative x = 1 - tanh(x)²`, with the pre-activation argument). -/
theorem C1_gradient_signal_counterexample :
    outDelta tanh_derivative [0] [(1 : ℝ) / 2]
        ≠ some [((0 : ℝ) - 1 / 2) * (1 - (1 / 2) ^ 2)] ∧
    tanh_derivative (1 / 2) ≠ 1 - ((1 : ℝ) / 2) ^ 2 := by
  refine ⟨?_, tanh_derivative_half_ne⟩
  intro h
  rw [show outDelta tanh_derivative [(0 : ℝ)] [(1 : ℝ) / 2]
      = some [((0 : ℝ) - 1 / 2) * tanh_derivative (1 / 2)] from rfl] at h
  have hv : [((0 : ℝ) - 1 / 2) * tanh_derivative (1 / 2)]
      = [((0 : ℝ) - 1 / 2) * (1 - (1 / 2) ^ 2)] := Option.some_injective _ h
  have he : ((0 : ℝ) - 1 / 2) * tanh_derivative (1 / 2)
      = ((0 : ℝ) - 1 / 2) * (1 - (1 / 2) ^ 2) := by injection hv
  have h3 : tanh_derivative (1 / 2) = 1 - ((1 : ℝ) / 2) ^ 2 :=
    mul_left_cancel₀ (show ((0 : ℝ) - 1 / 2) ≠ 0 by norm_num) he
  exact tanh_derivative_half_ne h3

/-- C1 amended: for every activation trace tail and target of matching
length, the output-layer error is `target - output` and the gradient
signal is `error * tanh_derivative(output) = error * (1 / cosh(output)²)`
elementwise — the derivative evaluated at the post-activation value,
which differs from `error * (1 - output²)` for nonzero outputs. -/
theorem C1_gradient_signal_amended (target ylast : List ℝ)
    (h : target.length = ylast.length) :
    outDelta tanh_derivative target ylast
      = some (List.zipWith (fun t o => (t - o) * (1 / Real.cosh o ^ 2)) target ylast) := by
  unfold outDelta
  rw [broadcastOp_eq_len _ _ _ h, Option.some_bind,
    broadcastOp_eq_len _ _ _ (by simp [h, List.length_zipWith]),
    zip_sub_mul]
  rfl

/-- C1 witness: the amended statement at target `[0]` and output `[0]`. -/
theorem C1_gradient_signal_amended_witness :
    ([(0 : ℝ)]).length = ([(0 : ℝ)]).length ∧
    outDelta tanh_derivative [(0 : ℝ)] [(0 : ℝ)]
      = some (List.zipWith (fun t o => (t - o) * (1 / Real.cosh o ^ 2))
          [(0 : ℝ)] [(0 : ℝ)]) :=
  ⟨rfl, C1_gradient_signal_amended [(0 : ℝ)] [(0 : ℝ)] rfl⟩

/-! ### C8: Forward mutates the caller's argument list -/

theorem fpIter_growth {R : Type} [CommRing R] (σ : R → R) (W : List (List (List R))) :
    ∀ (fuel i : Nat) (y z : List (List R)), fpIter σ W fuel i y = some z →
      z.take y.length = y ∧ z.length = y.length + fuel
  | 0, _, y, z, h => by
    obtain rfl : y = z := by simpa [fpIter] using h
    simp
  | fuel + 1, i, y, z, h => by
    simp only [fpIter] at h
    obtain ⟨yi, hyi, h⟩ := Option.bind_eq_some.mp h
    obtain ⟨Wi, hWi, h⟩ := Option.bind_eq_some.mp h
    obtain ⟨act, hact, h⟩ := Option.bind_eq_some.mp h
    obtain ⟨h1, h2⟩ := fpIter_growth σ W fuel (i + 1) _ z h
    constructor
    · have h3 := congrArg (List.take y.length) h1
      rw [List.take_take] at h3
      have h4 : min y.length (y ++ [1 :: act.map σ]).length = y.length := by
        simp
      rw [List.length_append] at h3
      rw [List.length_append] at h4
      rw [h4] at h3
      rw [h3]
      rw [List.take_append_eq_append_take]
      simp
    · rw [h2]
      simp only [List.length_append, List.length_singleton]
      omega

/-- C8 counterexample: `_forward_prop` on the `[1, 1]` zero network does
not leave the caller-supplied list `x = [[1, 0]]` unchanged — the
returned trace is the same (mutated) list object and has grown to two
entries. -/
theorem C8_forward_mutates_argument :
    (forward_prop Real.tanh [[[0], [0]]] [[(1 : ℝ), 0]]).isSome = true ∧
    (forward_prop Real.tanh [[[0], [0]]] [[(1 : ℝ), 0]]).getD [] ≠ [[(1 : ℝ), 0]] := by
  refine ⟨rfl, fun h => ?_⟩
  have h2 := congrArg List.length h
  rw [show ((forward_prop Real.tanh [[[0], [0]]] [[(1 : ℝ), 0]]).getD []).length = 2
    from rfl] at h2
  simp at h2

/-- C8 amended: Forward is deterministic and leaves every weight matrix
unchanged (the method never writes to the object), but it does mutate
the caller-supplied argument list: on success that list becomes the
returned activation trace, i.e. the original list extended by one
activation vector per weight matrix. -/
theorem C8_forward_frame_amended (net : FCNN ℝ) (x : List (List ℝ)) :
    (forward_call Real.tanh net x).1 = net ∧
    (forward_call Real.tanh net x).2.map (fun y => (y.take x.length, y.length))
      = (forward_call Real.tanh net x).2.map
          (fun _ => (x, x.length + net.weights.length)) := by
  refine ⟨rfl, ?_⟩
  show (forward_prop Real.tanh net.weights x).map _
    = (forward_prop Real.tanh net.weights x).map _
  cases hf : forward_prop Real.tanh net.weights x with
  | none => rfl
  | some y =>
    simp only [Option.map_some']
    unfold forward_prop at hf
    obtain ⟨y0, hy0, hf⟩ := Option.bind_eq_some.mp hf
    obtain ⟨ylast, hylast, hf⟩ := Option.bind_eq_some.mp hf
    obtain ⟨Wlast, hWlast, hf⟩ := Option.bind_eq_some.mp hf
    obtain ⟨act, hact, hf⟩ := Option.bind_eq_some.mp hf
    obtain rfl : y0 ++ [act.map Real.tanh] = y := by
      simpa using hf
    obtain ⟨hg1, hg2⟩ := fpIter_growth Real.tanh net.weights _ _ _ _ hy0
    have hne : net.weights ≠ [] := by
      intro hW
      rw [hW] at hWlast
      simp at hWlast
    have hlen : net.weights.length - 1 + 1 = net.weights.length :=
      Nat.succ_pred_eq_of_pos (List.length_pos.mpr hne)
    have ht : List.take x.length (y0 ++ [List.map Real.tanh act]) = x := by
      rw [List.take_append_eq_append_take]
      have hx0 : x.length - y0.length = 0 := by omega
      rw [hx0]
      simp [hg1]
    have hl : (y0 ++ [List.map Real.tanh act]).length = x.length + net.weights.length := by
      simp only [List.length_append, List.length_singleton]
      omega
    rw [ht, hl]

/-! ### C7: the shape invariant -/

theorem zip_add_shape {R : Type} [CommRing R] :
    ∀ A B : List (List R), A.map List.length = B.map List.length →
      (List.zipWith (fun r s => List.zipWith (fun x y => x + y) r s) A B).map
          List.length
        = A.map List.length
  | [], _, _ => by simp
  | _ :: _, [], h => by simp at h
  | r :: A, s :: B, h => by
    simp only [List.map_cons, List.cons.injEq] at h
    simp [List.length_zipWith, h.1, zip_add_shape A B h.2]

theorem matAdd_shape {R : Type} [CommRing R] (A B C : List (List R))
    (h : matAdd A B = some C) : matShape C = matShape A := by
  unfold matAdd at h
  by_cases hc : A.map List.length = B.map List.length
  · rw [if_pos hc] at h
    obtain rfl : _ = C := Option.some_inj.mp h
    have hAB : A.length = B.length := by simpa using congrArg List.length hc
    have h1 : (List.zipWith (fun r s => List.zipWith (fun x y => x + y) r s) A B).length
        = A.length := by
      rw [List.length_zipWith]; omega
    exact Prod.ext h1 (zip_add_shape A B hc)
  · rw [if_neg hc] at h
    exact absurd h (by simp)

theorem bpUpdate_shape {R : Type} [CommRing R] (lr : R) (arch : List Nat)
    (y dv : List (List R)) :
    ∀ (W : List (List (List R))) (i : Nat) (W2 : List (List (List R))),
      bpUpdate lr arch y dv i W = some W2 → W2.map matShape = W.map matShape
  | [], i, W2, h => by
    obtain rfl : ([] : List (List (List R))) = W2 := by simpa [bpUpdate] using h
    rfl
  | Wi :: rest, i, W2, h => by
    simp only [bpUpdate] at h
    obtain ⟨yi, hyi, h⟩ := Option.bind_eq_some.mp h
    obtain ⟨di, hdi, h⟩ := Option.bind_eq_some.mp h
    obtain ⟨ai, hai, h⟩ := Option.bind_eq_some.mp h
    obtain ⟨ai1, hai1, h⟩ := Option.bind_eq_some.mp h
    obtain ⟨layer, hlayer, h⟩ := Option.bind_eq_some.mp h
    obtain ⟨delta, hdelta, h⟩ := Option.bind_eq_some.mp h
    obtain ⟨Wi2, hWi2, h⟩ := Option.bind_eq_some.mp h
    obtain ⟨rest2, hrest2, h⟩ := Option.bind_eq_some.mp h
    obtain rfl : Wi2 :: rest2 = W2 := Option.some_inj.mp h
    simp only [List.map_cons, List.cons.injEq]
    exact ⟨matAdd_shape _ _ _ hWi2, bpUpdate_shape lr arch y dv rest (i + 1) rest2 hrest2⟩

theorem back_prop_shapes {R : Type} [CommRing R] (der : R → R) (net : FCNN R)
    (y : List (List R)) (target : List R) (lr : R) (net2 : FCNN R)
    (h : back_prop der net y target lr = some net2) :
    net2.arch = net.arch ∧ net2.layers = net.layers ∧
      net2.weights.map matShape = net.weights.map matShape := by
  unfold back_prop at h
  obtain ⟨ylast, hylast, h⟩ := Option.bind_eq_some.mp h
  obtain ⟨delta0, hdelta0, h⟩ := Option.bind_eq_some.mp h
  obtain ⟨dv, hdv, h⟩ := Option.bind_eq_some.mp h
  obtain ⟨W2, hW2, h⟩ := Option.bind_eq_some.mp h
  obtain rfl : { net with weights := W2 } = net2 := Option.some_inj.mp h
  exact ⟨rfl, rfl, bpUpdate_shape lr net.arch y dv.reverse net.weights 0 W2 hW2⟩

theorem fitLoop_shapes {R : Type} [CommRing R] (σ der : R → R)
    (ri : Nat → Nat → Nat) (Xl : Nat) (Z : List (List R)) (lb : List R) (lr : R) :
    ∀ (e k : Nat) (net : FCNN R),
      (fitLoop σ der ri Xl Z lb lr e k net).map
          (fun p => (p.1.arch, p.1.layers, p.1.weights.map matShape))
        = (fitLoop σ der ri Xl Z lb lr e k net).map
            (fun _ => (net.arch, net.layers, net.weights.map matShape)) := by
  intro e
  induction e with
  | zero => intro k net; rfl
  | succ e ih =>
    intro k net
    simp only [fitLoop]
    cases hz : Z.get? (ri Xl k) with
    | none => rfl
    | some zrow =>
      simp only [Option.some_bind]
      cases hf : forward_prop σ net.weights [zrow] with
      | none => rfl
      | some y =>
        simp only [Option.some_bind]
        cases ht : lb.get? (ri Xl k) with
        | none => rfl
        | some t =>
          simp only [Option.some_bind]
          cases hb : back_prop der net y [t] lr with
          | none => rfl
          | some net2 =>
            simp only [Option.some_bind]
            cases hr : fitLoop σ der ri Xl Z lb lr e (k + 1) net2 with
            | none => rfl
            | some res =>
              simp only [Option.some_bind, Option.map_some']
              have hpre := ih (k + 1) net2
              rw [hr] at hpre
              simp only [Option.map_some'] at hpre
              obtain ⟨ha, hl, hw⟩ := back_prop_shapes der net y [t] lr net2 hb
              rw [hpre, ha, hl, hw]

/-- C7: the shape invariant holds.  Construct allocates matrix `i` with
`arch[i] + 1` rows of `arch[i+1]` entries; every completed Backward (and
hence every completed Fit) returns weight matrices of exactly the shapes
it started from — the in-place update `W[i] += lr * outer(y[i], delta[i])`
never changes a shape. -/
theorem C7_shape_invariant :
    (∀ (rand : Nat → Nat → Nat → ℝ) (net_arch : List Nat),
        (construct rand net_arch).weights.map matShape
          = (List.range (net_arch.length - 1)).map (fun l =>
              (net_arch.getD l 0 + 1,
                List.replicate (net_arch.getD l 0 + 1) (net_arch.getD (l + 1) 0)))) ∧
    (∀ (net : FCNN ℝ) (y : List (List ℝ)) (target : List ℝ) (lr : ℝ),
        (back_prop tanh_derivative net y target lr).map
            (fun n2 => (n2.arch, n2.layers, n2.weights.map matShape))
          = (back_prop tanh_derivative net y target lr).map
              (fun _ => (net.arch, net.layers, net.weights.map matShape))) ∧
    (∀ (net : FCNN ℝ) (globalX : List (List ℝ)) (randint : Nat → Nat → Nat)
        (data : List (List ℝ)) (labels : List ℝ) (lr : ℝ) (epochs : Nat),
        (fit Real.tanh tanh_derivative net globalX randint data labels lr epochs).map
            (fun p => (p.1.arch, p.1.layers, p.1.weights.map matShape))
          = (fit Real.tanh tanh_derivative net globalX randint data labels lr
              epochs).map
              (fun _ => (net.arch, net.layers, net.weights.map matShape))) := by
  refine ⟨construct_shapes, ?_, ?_⟩
  · intro net y target lr
    cases hb : back_prop tanh_derivative net y target lr with
    | none => rfl
    | some net2 =>
      simp only [Option.map_some']
      obtain ⟨ha, hl, hw⟩ := back_prop_shapes tanh_derivative net y target lr net2 hb
      rw [ha, hl, hw]
  · intro net globalX randint data labels lr epochs
    exact fitLoop_shapes Real.tanh tanh_derivative randint globalX.length _ labels lr
      epochs 0 net

/-! ### C9 and C4: behaviour of fit -/

theorem fitLoop_count {R : Type} [CommRing R] (σ der : R → R)
    (ri : Nat → Nat → Nat) (Xl : Nat) (Z : List (List R)) (lb : List R) (lr : R) :
    ∀ (e k : Nat) (net : FCNN R),
      (fitLoop σ der ri Xl Z lb lr e k net).map (fun p => p.2)
        = (fitLoop σ der ri Xl Z lb lr e k net).map (fun _ => e) := by
  intro e
  induction e with
  | zero => intro k net; rfl
  | succ e ih =>
    intro k net
    simp only [fitLoop]
    cases hz : Z.get? (ri Xl k) with
    | none => rfl
    | some zrow =>
      simp only [Option.some_bind]
      cases hf : forward_prop σ net.weights [zrow] with
      | none => rfl
      | some y =>
        simp only [Option.some_bind]
        cases ht : lb.get? (ri Xl k) with
        | none => rfl
        | some t =>
          simp only [Option.some_bind]
          cases hb : back_prop der net y [t] lr with
          | none => rfl
          | some net2 =>
            simp only [Option.some_bind]
            cases hr : fitLoop σ der ri Xl Z lb lr e (k + 1) net2 with
            | none => rfl
            | some res =>
              simp only [Option.some_bind, Option.map_some']
              have hpre := ih (k + 1) net2
              rw [hr] at hpre
              simp only [Option.map_some'] at hpre
              rw [Option.some_inj.mp hpre]

/-- C9: the claimed count is the code's intent, and every completed run
of `fit` does perform exactly `epochs` Forward/Backward weight updates
(second conjunct).  But because `fit` samples
`np.random.randint(X.shape[0])` from the module-level global `X` rather
than from its `data` argument, a run over a training set smaller than
the global `X` can abort with an `IndexError` after fewer updates than
`epoch_count`: with one sample, one label, one epoch and the legal draw
3 of `randint(4)`, `fit` raises after 0 of 1 updates (first conjunct). -/
theorem C9_fit_update_count :
    fit Real.tanh tanh_derivative (netD ℝ) notebookX (fun n _ => n - 1)
        [[0, 1]] [0] (1 / 10) 1 = none ∧
    (∀ (net : FCNN ℝ) (globalX : List (List ℝ)) (randint : Nat → Nat → Nat)
        (data : List (List ℝ)) (labels : List ℝ) (lr : ℝ) (epochs : Nat),
      (fit Real.tanh tanh_derivative net globalX randint data labels lr epochs).map
          (fun p => p.2)
        = (fit Real.tanh tanh_derivative net globalX randint data labels lr
            epochs).map (fun _ => epochs)) := by
  refine ⟨rfl, ?_⟩
  intro net globalX randint data labels lr epochs
  exact fitLoop_count Real.tanh tanh_derivative randint globalX.length _ labels lr
    epochs 0 net

/-- C4: the sampling bug of `fit`.  The index is drawn by
`np.random.randint(X.shape[0])` over the module-level global `X` (the
4-row XOR array), not over the `data` argument; the draw 3 is therefore
legal even when `data` holds a single sample, and `fit` then raises an
`IndexError` at `Z[3]` instead of training on a sample of `data`. -/
theorem C4_fit_global_index_bug :
    fit Real.tanh tanh_derivative (netD ℝ) notebookX (fun n _ => n - 1)
        [[0, 0]] [0] (1 / 10) 1 = none ∧
    ((fun n _ => n - 1) : Nat → Nat → Nat) notebookX.length 0 = 3 ∧
    ([[(0 : ℝ), 0]]).length = 1 := by
  exact ⟨rfl, rfl, rfl⟩

/-! ### C5 and C10: what predict returns -/

theorem fpIter_lastAct {R : Type} [CommRing R] (σ : R → R) (W : List (List (List R))) :
    ∀ (fuel i : Nat) (y : List (List R)) (val : List R),
      y.get? i = some val → y.getLast? = some val → y.length = i + 1 →
      i + fuel + 1 = W.length →
      ((fpIter σ W fuel i y).bind fun t =>
          (t.getLast?).bind fun ylast =>
          (W.getLast?).bind fun Wlast =>
          (dotVM ylast Wlast).bind fun act => some (act.map σ))
        = lastAct σ (W.drop i) val
  | 0, i, y, val, _, hlast, _, hW => by
    have hi : i < W.length := by omega
    simp only [fpIter, Option.some_bind]
    rw [hlast, Option.some_bind]
    have hdrop : W.drop i = W[i] :: W.drop (i + 1) := List.drop_eq_getElem_cons hi
    have hnil : W.drop (i + 1) = [] := List.drop_eq_nil_of_le (by omega)
    rw [hnil] at hdrop
    have hlastW : W.getLast? = some W[i] := by
      rw [List.getLast?_eq_getElem?]
      have : W.length - 1 = i := by omega
      rw [this]
      exact List.getElem?_eq_getElem hi
    rw [hlastW, Option.some_bind, hdrop]
    simp only [lastAct]
    cases dotVM val W[i] <;> rfl
  | fuel + 1, i, y, val, hget, _, hlen, hW => by
    have hi : i < W.length := by omega
    simp only [fpIter]
    rw [hget, Option.some_bind]
    have hWi : W.get? i = some W[i] := by
      rw [List.get?_eq_getElem?]
      exact List.getElem?_eq_getElem hi
    rw [hWi, Option.some_bind]
    have hdrop : W.drop i = W[i] :: W.drop (i + 1) := List.drop_eq_getElem_cons hi
    have hlen2 : (W.drop (i + 1)).length = fuel + 1 := by
      rw [List.length_drop]; omega
    obtain ⟨W2, rest, hrest⟩ : ∃ W2 rest, W.drop (i + 1) = W2 :: rest := by
      cases hd : W.drop (i + 1) with
      | nil => rw [hd] at hlen2; simp at hlen2
      | cons a b => exact ⟨a, b, rfl⟩
    rw [hdrop, hrest]
    cases hdot : dotVM val W[i] with
    | none =>
      simp only [Option.none_bind, lastAct]
      rw [hdot, Option.none_bind]
    | some act =>
      simp only [Option.some_bind, lastAct]
      rw [hdot, Option.some_bind, ← hrest]
      exact fpIter_lastAct σ W fuel (i + 1) (y ++ [1 :: act.map σ]) (1 :: act.map σ)
        (by rw [← hlen]; exact List.get?_concat_length y _)
        (List.getLast?_concat y)
        (by simp [hlen])
        (by omega)

/-- The last entry of the `_forward_prop` trace on the singleton input
list `[x0]` is the final-layer activation `lastAct` of `x0`. -/
theorem forward_prop_lastAct {R : Type} [CommRing R] (σ : R → R)
    (W : List (List (List R))) (x0 : List R) (h : W ≠ []) :
    (forward_prop σ W [x0]).bind List.getLast? = lastAct σ W x0 := by
  have hpos : 0 < W.length := List.length_pos.mpr h
  have h2 := fpIter_lastAct σ W (W.length - 1) 0 [x0] x0 rfl rfl rfl (by omega)
  rw [List.drop_zero] at h2
  rw [← h2]
  unfold forward_prop
  cases hf : fpIter σ W (W.length - 1) 0 [x0] with
  | none => rfl
  | some t =>
    simp only [Option.some_bind]
    cases t.getLast? with
    | none => rfl
    | some ylast =>
      simp only [Option.some_bind]
      cases W.getLast? with
      | none => rfl
      | some Wlast =>
        simp only [Option.some_bind]
        cases dotVM ylast Wlast with
        | none => rfl
        | some act => simp [List.getLast?_concat]

/-- Running `predict_single_data`'s loop followed by `val[1]` extracts entry 0
of the final-layer activation. -/
theorem psd_lastAct {R : Type} [CommRing R] (σ : R → R) :
    ∀ (ws : List (List (List R))) (v : List R), ws ≠ [] →
      (psdLoop σ ws v).bind (fun val => val.get? 1)
        = (lastAct σ ws v).bind (fun out => out.get? 0)
  | [], _, h => absurd rfl h
  | [W], v, _ => by
    simp only [psdLoop, lastAct]
    cases dotVM v W with
    | none => rfl
    | some act => simp [psdLoop]
  | W :: W2 :: ws, v, _ => by
    simp only [psdLoop, lastAct]
    cases dotVM v W with
    | none => rfl
    | some act =>
      simp only [Option.some_bind]
      exact psd_lastAct σ (W2 :: ws) (1 :: act.map σ) (by simp)

/-- C5 counterexample: on the `[1, 2]` zero network, Predict returns a
single scalar (a one-element value list) while the final layer of the
Forward trace holds two activation values, so Predict does not return
all `arch[last]` final-layer values. -/
theorem C5_predict_counterexample :
    ((predict_single_data Real.tanh (netB ℝ) [0]).elim [] (fun v => [v])).length
      = 1 ∧
    (((forward_prop Real.tanh (netB ℝ).weights [[(1 : ℝ), 0]]).bind
        List.getLast?).getD []).length = 2 ∧
    (predict_single_data Real.tanh (netB ℝ) [0]).elim [] (fun v => [v])
      ≠ ((forward_prop Real.tanh (netB ℝ).weights [[(1 : ℝ), 0]]).bind
          List.getLast?).getD [] := by
  refine ⟨rfl, rfl, fun h => ?_⟩
  have h2 := congrArg List.length h
  rw [show ((predict_single_data Real.tanh (netB ℝ) [0]).elim []
      (fun v => [v])).length = 1 from rfl] at h2
  rw [show (((forward_prop Real.tanh (netB ℝ).weights [[(1 : ℝ), 0]]).bind
      List.getLast?).getD []).length = 2 from rfl] at h2
  norm_num at h2

/-- C5 amended: Predict bias-prefixes even the final layer and returns
`val[1]`, the activation of the first output neuron only: for every
network with at least one weight matrix it equals entry 0 of the last
entry of the Forward activation trace on the bias-prefixed input — the
full final-layer vector (all `arch[last]` values) is returned only when
the final layer has exactly one neuron. -/
theorem C5_predict_amended (net : FCNN ℝ) (x : List ℝ) (h : net.weights ≠ []) :
    predict_single_data Real.tanh net x
      = ((forward_prop Real.tanh net.weights [1 :: x]).bind List.getLast?).bind
          (fun out => out.get? 0) := by
  rw [forward_prop_lastAct Real.tanh net.weights (1 :: x) h]
  exact psd_lastAct Real.tanh net.weights (1 :: x) h

/-- C5 witness: the amended statement on the `[1, 1]` zero network with
input `[0]`. -/
theorem C5_predict_amended_witness :
    predict_single_data Real.tanh (netA ℝ) [0]
      = ((forward_prop Real.tanh (netA ℝ).weights [1 :: [0]]).bind
          List.getLast?).bind (fun out => out.get? 0) :=
  C5_predict_amended (netA ℝ) [0] (by simp [netA])

/-- C10 counterexample: on the `[1, 2]` zero network the single-sample
path does produce a scalar, but the batch `predict` on the one-sample
input `[[0]]` raises at the first `np.vstack` (a `(0, 2)` accumulator
cannot be stacked with a `(1, 1)` row) instead of returning an n-by-1
array of those scalars. -/
theorem C10_batch_predict_counterexample :
    (predict_single_data Real.tanh (netB ℝ) [0]).isSome = true ∧
    predict Real.tanh (netB ℝ) [[0]] = none := ⟨rfl, rfl⟩

/-- C10 amended: the single-sample path returns the lone scalar `val[1]`
as claimed, but the batch predict only stacks scalars into an n-by-1
array when the final layer has exactly one neuron; whenever
`arch[last] ≠ 1` and at least one sample is supplied, the first
`np.vstack` raises and `predict` returns an error. -/
theorem C10_batch_predict_amended (net : FCNN ℝ) (x : List ℝ) (xs : List (List ℝ))
    (h : net.arch.getLast?.getD 0 ≠ 1) :
    predict Real.tanh net (x :: xs) = none := by
  unfold predict
  simp only [predLoop]
  cases predict_single_data Real.tanh net x with
  | none => rfl
  | some v => simp [if_neg h]

/-- C10 witness: the amended statement on the `[1, 2]` zero network,
whose final layer has 2 neurons, with the single-sample batch `[[0]]`. -/
theorem C10_batch_predict_amended_witness :
    ((netB ℝ).arch.getLast?.getD 0 ≠ 1) ∧
    predict Real.tanh (netB ℝ) ([0] :: []) = none :=
  ⟨by simp [netB], C10_batch_predict_amended (netB ℝ) [0] [] (by simp [netB])⟩

end FCnn
